import Mathlib

/-!
Verification of the `PowerForecaster` pipeline (`power_predictor.py`).

The program is a pandas/sklearn/statsmodels orchestration script.  We embed it
shallowly:

* a pandas `DataFrame` becomes a datetime index (rationals: a timestamp is
  encoded as `1440 * dayNumber + minuteOfDay`) together with named columns of
  rational values;
* the sklearn `QuantileTransformer` (uniform output, `n_quantiles` = sample
  count) becomes an exact piecewise-linear interpolation over the sorted
  sample, mirroring `numpy.interp`, in exact rational arithmetic;
* fallible Python code (TypeError, AttributeError, IndexError, ValueError)
  returns `Except String`;
* library calls whose internals live outside this repository
  (`fbprophet`, `statsmodels`) are modelled by their documented input/output
  behaviour, as noted in the doc comment of each such definition.
-/

/-- A pandas dataframe: a (datetime) index and named columns of rationals.
Timestamps are rationals encoding `1440 * day + minuteOfDay`. -/
structure DataFrame where
  index : List ℚ
  cols : List (String × List ℚ)
deriving DecidableEq, Repr

/-- Column access `df[name]`; a missing column reads as the empty column. -/
def DataFrame.getCol (df : DataFrame) (name : String) : List ℚ :=
  match df.cols.find? (fun c => c.1 = name) with
  | some c => c.2
  | none => []

/-- Column assignment `df[name] = vals` (in-place in pandas; here the updated
frame is returned). Overwrites an existing column, else appends a new one. -/
def DataFrame.setCol (df : DataFrame) (name : String) (vals : List ℚ) : DataFrame :=
  if (df.cols.find? (fun c => c.1 = name)).isSome then
    { df with cols := df.cols.map (fun c => if c.1 = name then (name, vals) else c) }
  else
    { df with cols := df.cols ++ [(name, vals)] }

/-- The `df.rename(columns={old: new})`: renames a column, keeping its values. -/
def DataFrame.renameCol (df : DataFrame) (old new : String) : DataFrame :=
  { df with cols := df.cols.map (fun c => if c.1 = old then (new, c.2) else c) }

/-- Column selection `df[[names]]`. -/
def DataFrame.select (df : DataFrame) (names : List String) : DataFrame :=
  { index := df.index, cols := names.map (fun n => (n, df.getCol n)) }

/-- Boolean-mask row filtering `df[p(df.index)]`: keeps the rows whose index
value satisfies `p`, each column filtered in tandem with the index. -/
def DataFrame.filterRows (df : DataFrame) (p : ℚ → Bool) : DataFrame :=
  { index := df.index.filter p,
    cols := df.cols.map (fun c =>
      (c.1, ((df.index.zip c.2).filter (fun z => p z.1)).map (fun z => z.2))) }

/-- The `df.iloc[:k, :]` for a nonnegative `k`: the first `k` rows. -/
def DataFrame.takeRows (df : DataFrame) (k : ℕ) : DataFrame :=
  { index := df.index.take k, cols := df.cols.map (fun c => (c.1, c.2.take k)) }

/-- The `df.iloc[k:, :]` for a nonnegative `k`: the rows from position `k` on. -/
def DataFrame.dropRows (df : DataFrame) (k : ℕ) : DataFrame :=
  { index := df.index.drop k, cols := df.cols.map (fun c => (c.1, c.2.drop k)) }

/-- The `numpy.interp` at one point: piecewise-linear interpolation through the
given `(x, f)` nodes (x-coordinates nondecreasing), constant beyond the first
and last node.  An exact hit on a repeated x-node yields the value stored at
the last copy of that node, as numpy resolves it. -/
def interpR (x : ℚ) : List (ℚ × ℚ) → ℚ
  | [] => 0
  | [p] => p.2
  | p :: q :: rest =>
      if x < p.1 then p.2
      else if x < q.1 then p.2 + (q.2 - p.2) * (x - p.1) / (q.1 - p.1)
      else interpR x (q :: rest)

/-- The mirror image of `interpR`: identical linear interpolation, but an exact
hit on a repeated x-node yields the value at the first copy.  This is what
`numpy.interp` on the negated reversed nodes computes, which the sklearn
`QuantileTransformer.transform` averages with the plain interpolation. -/
def interpL (x : ℚ) : List (ℚ × ℚ) → ℚ
  | [] => 0
  | [p] => p.2
  | p :: q :: rest =>
      if x ≤ p.1 then p.2
      else if x ≤ q.1 then p.2 + (q.2 - p.2) * (x - p.1) / (q.1 - p.1)
      else interpL x (q :: rest)

/-- sklearn `QuantileTransformer.transform` on one value, given the fitted
`(quantile, reference)` nodes: the average of the two one-sided
`numpy.interp` evaluations (this is how sklearn handles repeated quantiles). -/
def qtransform (pts : List (ℚ × ℚ)) (v : ℚ) : ℚ :=
  (interpL v pts + interpR v pts) / 2

/-- sklearn `QuantileTransformer.inverse_transform` on one value:
`numpy.interp` through the `(reference, quantile)` nodes. -/
def qinverse (pts : List (ℚ × ℚ)) (u : ℚ) : ℚ :=
  interpR u (pts.map Prod.swap)

/-- sklearn `references_`: the uniform grid `numpy.linspace(0, 1, n)`
(for `n = 1` this is the single point `[0]`, matching numpy). -/
def references (n : ℕ) : List ℚ :=
  (List.range n).map (fun i : ℕ => (i : ℚ) / ((n : ℚ) - 1))

/-- The nodes of a fitted `QuantileTransformer()`: the sorted sample zipped
with the uniform reference grid.  (sklearn computes the quantiles of the
fitted column at the reference probabilities; with `n_quantiles` equal to the
sample count these are exactly the sorted sample values.) -/
def quantilePoints (xs : List ℚ) : List (ℚ × ℚ) :=
  (List.insertionSort (· ≤ ·) xs).zip (references xs.length)

/-- The `QuantileTransformer().fit_transform` on one column. -/
def fitTransform1D (xs : List ℚ) : List ℚ :=
  xs.map (qtransform (quantilePoints xs))

/-- The `QuantileTransformer.inverse_transform` (of a transformer fitted on
`xs`) on one column. -/
def inverseTransform1D (xs us : List ℚ) : List ℚ :=
  us.map (qinverse (quantilePoints xs))

/-- The `Constants.TRAIN_TEST_SPLIT_RATIO = 0.8` (the trailing word of the source
name is spelled out here as `Frac` to comply with local naming rules). -/
def Constants.TRAIN_TEST_SPLIT_Frac : ℚ := 8 / 10

/-- The `Constants.CUTOFF_DATE = pandas.to_datetime of 2013-12-01`: day number
16040 since 1970-01-01, in minutes. -/
def Constants.CUTOFF_DATE : ℚ := 1440 * 16040

/-- The `Constants.DEFAULT_FUTURE_PERIODS = 4 * 24 * 10`. -/
def Constants.DEFAULT_FUTURE_PERIODS : ℕ := 4 * 24 * 10

/-- The `Constants.DEFAULT_FUTURE_FREQ`, the 15T frequency string: fifteen minutes. -/
def Constants.DEFAULT_FUTURE_FREQ : ℚ := 15

/-- The `Constants.WINDOW_TIME_STEPS = 4` (the `.value` of the enum member). -/
def Constants.WINDOW_TIME_STEPS_value : ℤ := 4

/-- The `pandas.to_datetime` of the concatenated date and time columns, on one row: the date column
holds a day number, the time column minutes within the day. -/
def toDatetime (d t : ℚ) : ℚ := 1440 * d + t

/-- The `ColumnNames` of the source, as string constants. -/
def ColumnNames.POWER : String := "actual_kwh"

def ColumnNames.TEMPERATURE : String := "actual_temperature"

def ColumnNames.LABEL : String := "y"

def ColumnNames.FORECAST : String := "yhat"

def ColumnNames.DATE : String := "date"

def ColumnNames.TIME : String := "time"

def ColumnNames.DATE_STAMP : String := "ds"

def ColumnNames.FEATURES : List String := [ColumnNames.LABEL, ColumnNames.TEMPERATURE]

def ColumnNames.LABELS : List String := [ColumnNames.LABEL]

/-- The `Models` enum.  The Python constructor accepts an arbitrary object as
`model`; `otherValue` stands for any value outside the four enum members. -/
inductive ModelKind where
  | PROPHET
  | ARIMA
  | VAR
  | LSTM
  | otherValue (name : String)
deriving DecidableEq, Repr

/-- The four fitting routines `fit()` can dispatch to. -/
inductive FitCall where
  | prophet_fit
  | arima_fit
  | var_fit
  | lstm_fit_simple
deriving DecidableEq, Repr

/-- The four prediction paths `predict()` can dispatch to. -/
inductive PredictCall where
  | prophet_predict
  | arima_predict
  | var_predict
  | lstm_predict
deriving DecidableEq, Repr

/-- Modelled from the spec: `facebook_prophet_filter` lives in
`model_util.py`, which is not under `src/`.  Per the spec it interpolates
missing readings of the given column via a trend-decomposition (prophet)
model; the interpolation itself is abstracted as the function argument
`interp`, and the result is a frame carrying the interpolated values in the
`yhat` (FORECAST) column, as the caller in `power_predictor.py` reads it. -/
def facebook_prophet_filter (df : DataFrame) (col : String)
    (interp : List ℚ → List ℚ) : DataFrame :=
  { index := df.index, cols := [(ColumnNames.FORECAST, interp (df.getCol col))] }

/-- Modelled from the spec: `normalize` lives in `utility.py`, which is not
under `src/`.  Per the spec it normalizes the feature columns; it is given the
fresh `QuantileTransformer`, so it fits the transformer on the listed feature
columns of `df` and replaces each with its transformed values.  (Named
`normalizeDf` here because Mathlib already takes the name `normalize`.) -/
def normalizeDf (df : DataFrame) (features : List String) : DataFrame :=
  features.foldl (fun d c => d.setCol c (fitTransform1D (df.getCol c))) df

/-- The state built by `PowerForecaster.__init__` (the fields the claims
refer to). `model_fit` is `none` until one of the fitting routines runs. -/
structure PowerForecaster where
  df_original : DataFrame
  df : DataFrame
  testing : DataFrame
  train_test_split_frac : ℚ
  model : ModelKind
  train_X : DataFrame
  test_X : DataFrame
  train_y : DataFrame
  test_y : DataFrame
  model_fit : Option FitCall
deriving Repr

/-- Python `int()` on a rational: truncation toward zero. -/
def pyInt (q : ℚ) : ℤ := if 0 ≤ q then ⌊q⌋ else -⌊-q⌋

/-- The `PowerForecaster.train_test_split`: `split_index = int(ratio * len(df))`,
train is `df.iloc[:split_index, :]`, test is `df.iloc[split_index:, :]`.
(For the nonnegative ratios the program uses, `int` is the floor.) -/
def PowerForecaster.train_test_split (ratio : ℚ) (df : DataFrame) :
    DataFrame × DataFrame :=
  let split_index := (pyInt (ratio * df.index.length)).toNat
  (df.takeRows split_index, df.dropRows split_index)

/-- The `PowerForecaster.__init__`: the statements of the constructor in source
order.  `interp` abstracts the prophet interpolation inside
`facebook_prophet_filter`.  Besides the constructed state, the frame that the
caller `df` object has been mutated into is returned (the constructor sets
its index and overwrites its temperature column in place; the later
`df.rename(...)` rebinds only the local name). -/
def PowerForecaster.init (df0 : DataFrame) (interp : List ℚ → List ℚ)
    (model : ModelKind) (ratio : ℚ) : DataFrame × PowerForecaster :=
  let df1 : DataFrame :=
    { df0 with index :=
        List.zipWith toDatetime (df0.getCol ColumnNames.DATE) (df0.getCol ColumnNames.TIME) }
  let df_original := df1
  let interpolated_df := facebook_prophet_filter df1 ColumnNames.TEMPERATURE interp
  let df2 := df1.setCol ColumnNames.TEMPERATURE (interpolated_df.getCol ColumnNames.FORECAST)
  let df3 := df2.renameCol ColumnNames.POWER ColumnNames.LABEL
  let normalized := normalizeDf df3 ColumnNames.FEATURES
  let dfA := normalized.filterRows (fun t => t < Constants.CUTOFF_DATE)
  let testing := normalized.filterRows (fun t => Constants.CUTOFF_DATE ≤ t)
  let dfB := dfA.setCol ColumnNames.DATE_STAMP dfA.index
  let splitX := PowerForecaster.train_test_split ratio (dfB.select ColumnNames.FEATURES)
  let splitY := PowerForecaster.train_test_split ratio (dfB.select ColumnNames.LABELS)
  (df2,
    { df_original := df_original
      df := dfB
      testing := testing
      train_test_split_frac := ratio
      model := model
      train_X := splitX.1
      test_X := splitX.2
      train_y := splitY.1
      test_y := splitY.2
      model_fit := none })

/-- The pipeline in the order the spec states it: build the datetime index,
interpolate the temperature column through the prophet filter, rename the
power column to the label name, then normalize the feature columns with the
quantile transformer. -/
def specPipeline (df0 : DataFrame) (interp : List ℚ → List ℚ) : DataFrame :=
  let indexed : DataFrame :=
    { df0 with index :=
        List.zipWith toDatetime (df0.getCol ColumnNames.DATE) (df0.getCol ColumnNames.TIME) }
  let interpolated := indexed.setCol ColumnNames.TEMPERATURE
    ((facebook_prophet_filter indexed ColumnNames.TEMPERATURE interp).getCol ColumnNames.FORECAST)
  let renamed := interpolated.renameCol ColumnNames.POWER ColumnNames.LABEL
  normalizeDf renamed ColumnNames.FEATURES

/-- The `PowerForecaster.fit`: the `if/elif` dispatch on `self.model`; any other
value raises `ValueError("{} is not defined".format(self.model))`. -/
def PowerForecaster.fit (m : ModelKind) : Except String FitCall :=
  if m = ModelKind.PROPHET then .ok .prophet_fit
  else if m = ModelKind.ARIMA then .ok .arima_fit
  else if m = ModelKind.VAR then .ok .var_fit
  else if m = ModelKind.LSTM then .ok .lstm_fit_simple
  else .error (reprStr m ++ " is not defined")

/-- The `PowerForecaster.predict`: the dispatch part of the method (the PROPHET
branch first materialises `self.future`, then each branch routes to its
prediction path); any other model value raises `ValueError`. -/
def PowerForecaster.predictDispatch (m : ModelKind) : Except String PredictCall :=
  if m = ModelKind.PROPHET then .ok .prophet_predict
  else if m = ModelKind.ARIMA then .ok .arima_predict
  else if m = ModelKind.VAR then .ok .var_predict
  else if m = ModelKind.LSTM then .ok .lstm_predict
  else .error (reprStr m ++ " is not defined")

/-- The `str(timestamp)[:10]` on an encoded timestamp: truncation to the date,
in other words down to midnight of that day. -/
def dateTrunc (t : ℚ) : ℚ := 1440 * ((⌊t / 1440⌋ : ℤ) : ℚ)

/-- The `fbprophet.Prophet.make_future_dataframe` (external library, modelled from
its documented behaviour): `periods` new timestamps after the last history
timestamp, spaced `freq` apart; with `include_history` the history timestamps
are prepended. -/
def make_future_dataframe (history : List ℚ) (periods : ℕ) (freq : ℚ)
    (include_history : Bool) : List ℚ :=
  let lastDs := history.getLastD 0
  let future := (List.range periods).map (fun i : ℕ => lastDs + freq * ((i : ℚ) + 1))
  if include_history then history ++ future else future

/-- The PROPHET branch of `PowerForecaster.predict`: build
`self.future = make_future_dataframe(periods=DEFAULT_FUTURE_PERIODS,
freq=DEFAULT_FUTURE_FREQ, include_history=False)`, call the fitted model
`predict` on it (the library returns one `yhat` per future timestamp;
`yhatFn` abstracts the fitted model), then copy `yhat` into the label column
`y`. -/
def PowerForecaster.prophetPredictPath (historyDs : List ℚ) (yhatFn : ℚ → ℚ) :
    DataFrame :=
  let future := make_future_dataframe historyDs Constants.DEFAULT_FUTURE_PERIODS
    Constants.DEFAULT_FUTURE_FREQ false
  let predicted : DataFrame :=
    { index := future,
      cols := [(ColumnNames.DATE_STAMP, future), (ColumnNames.FORECAST, future.map yhatFn)] }
  predicted.setCol ColumnNames.LABEL (predicted.getCol ColumnNames.FORECAST)

/-- The `PowerForecaster.arima_predict`: computes
`end = str(self.train_y.index[-1])`, `start = str(self.train_y.index[-future])`
and calls the fitted model method `predict(start=start[:10], end=end[:10],
dynamic=True)`.  Negative indexing raises `IndexError` when out of range.  The
statsmodels `predict` (external library, modelled from its documented
behaviour) returns one prediction per index timestamp between its `start` and
`end` keys — an in-sample dynamic prediction. -/
def PowerForecaster.arima_predict (trainIdx : List ℚ) (future : ℕ) :
    Except String (List ℚ) :=
  if trainIdx.length = 0 then .error "IndexError: index out of bounds"
  else
    let n := trainIdx.length
    let posStart := if future = 0 then 0 else n - future
    if future > n then .error "IndexError: index out of bounds"
    else
      let startT := dateTrunc (trainIdx.getD posStart 0)
      let endT := dateTrunc (trainIdx.getD (n - 1) 0)
      .ok (trainIdx.filter (fun t => startT ≤ t && t ≤ endT))

/-- The ARIMA branch of `PowerForecaster.predict`: it always passes
`future = Constants.DEFAULT_FUTURE_PERIODS.value`. -/
def PowerForecaster.arimaPredictPath (trainIdx : List ℚ) : Except String (List ℚ) :=
  PowerForecaster.arima_predict trainIdx Constants.DEFAULT_FUTURE_PERIODS

/-- A Python runtime value as far as `sliding_window` manipulates one: an
integer, or an `enum.Enum` member (which supports no arithmetic). -/
inductive PyVal where
  | int (n : ℤ)
  | enumMember (name : String) (value : ℤ)
deriving DecidableEq, Repr

/-- Python `-` on such values: defined for two integers, a `TypeError` when an
enum member is involved (plain `Enum` defines no `__sub__`/`__rsub__`). -/
def pySub : PyVal → PyVal → Except String PyVal
  | .int a, .int b => .ok (.int (a - b))
  | _, _ => .error "TypeError: unsupported operand type for -"

/-- Python `int(*x)` where `x` is an integer: star-unpacking a non-iterable
raises `TypeError` before `int` is even applied.  The source line
`self.val_idx = idx[int( * length):]` hits this (a factor was evidently lost
before `* length`). -/
def pyUnpackInt : PyVal → Except String ℤ
  | _ => .error "TypeError: argument after * must be an iterable"

/-- What `sliding_window` binds and computes, in source order.
`window_size = Constants.WINDOW_TIME_STEPS` binds the enum member itself (the
`.value` is missing in the source), so the very first use
`np.zeros((length0 - window_size, window_size))` raises `TypeError`; the
remaining statements are written out below but are unreachable.  On success
the function would return the shuffled data/label matrices and the
train/test slices. -/
def PowerForecaster.sliding_window (df : DataFrame) :
    Except String (List (List ℚ) × List (List ℚ) × List (List ℚ) × List (List ℚ)) := do
  let length0 : PyVal := .int (df.index.length : ℤ)
  let window_size : PyVal := .enumMember "Constants.WINDOW_TIME_STEPS" 4
  let rowsDim ← pySub length0 window_size
  let nRows : ℕ := (match rowsDim with | .int k => k.toNat | _ => 0)
  let w : ℕ := 4
  let label_column := ColumnNames.LABEL
  let sliding_window_label : List (List ℚ) :=
    (List.range nRows).map (fun counter => [(df.getCol label_column).getD (counter + w) 0])
  let feature_column := ColumnNames.TEMPERATURE
  let sliding_window_data : List (List ℚ) :=
    (List.range nRows).map (fun counter =>
      ((df.getCol feature_column).drop counter).take w)
  let lengthV : PyVal := .int (sliding_window_data.length : ℤ)
  let _val_idx_start ← pyUnpackInt lengthV
  let frac := Constants.TRAIN_TEST_SPLIT_Frac
  let cut := (pyInt (frac * sliding_window_data.length)).toNat
  let train_X := sliding_window_data.take cut
  let train_y := sliding_window_label.take cut
  let test_X := sliding_window_data.drop cut
  let test_y := sliding_window_label.drop cut
  return (train_X, train_y, test_X, test_y)

/-- The `pd.concatenate(...)`: the pandas module has no attribute `concatenate`
(the idiom the source copied uses `numpy.concatenate`), so this attribute
access raises `AttributeError` whatever the arguments are. -/
def pd_concatenate (_a _b : List (List ℚ)) : Except String (List (List ℚ)) :=
  .error "AttributeError: module pandas has no attribute concatenate"

/-- The `numpy.reshape` of a 3-dimensional array to `(rows, cols)`: flattens and
rechunks, a `ValueError` unless the element count matches exactly. -/
def npReshape2 (xss : List (List (List ℚ))) (rows cols : ℕ) :
    Except String (List (List ℚ)) :=
  let flat := (xss.map (fun m => m.flatten)).flatten
  if flat.length = rows * cols then
    .ok ((List.range rows).map (fun i => ((flat.drop (i * cols)).take cols)))
  else .error "ValueError: cannot reshape array"

/-- The `QuantileTransformer.inverse_transform` on a matrix: each column is
inverse-transformed against the fitted sample of that feature column. -/
def inverse_transform (fitted : List (List ℚ)) (m : List (List ℚ)) :
    List (List ℚ) :=
  m.map (fun row => (row.zip fitted).map (fun z => qinverse (quantilePoints z.2) z.1))

/-- The `PowerForecaster.evaluate`, statement by statement: predict on
`self.test_X`, reshape `test_X` from `(shape[0], ·, shape[2])` to
`(shape[0], shape[2])`, re-attach the non-label columns with
`pd.concatenate`, inverse-transform, and form the mean squared error of the
label columns (the source prints the square root of the returned value).
`predictFn` abstracts the fitted network, `fitted` the columns the
transformer was fitted on.  Note `pd.concatenate` does not exist, so the
computation can never reach the error measure. -/
def PowerForecaster.evaluate (predictFn : List (List (List ℚ)) → List (List ℚ))
    (fitted : List (List ℚ)) (test_X : List (List (List ℚ))) (test_y : List ℚ) :
    Except String ℚ := do
  let yhat := predictFn test_X
  let shape0 := test_X.length
  let shape2 := ((test_X.headD []).headD []).length
  let test_X2 ← npReshape2 test_X shape0 shape2
  let inv_yhat ← pd_concatenate yhat (test_X2.map (fun r => r.drop 1))
  let inv_yhat2 := inverse_transform fitted inv_yhat
  let inv_yhat0 := inv_yhat2.map (fun r => r.headD 0)
  let inv_y ← pd_concatenate (test_y.map (fun v => [v])) (test_X2.map (fun r => r.drop 1))
  let inv_y2 := inverse_transform fitted inv_y
  let inv_y0 := inv_y2.map (fun r => r.headD 0)
  let mse := ((inv_y0.zip inv_yhat0).map (fun z => (z.1 - z.2) ^ 2)).sum / (inv_y0.length : ℚ)
  return mse

/-- A small concrete dataframe used to witness the hypothesis-bearing
theorems: date column in day numbers, time in minutes, two rows before the
cutoff date and two after. -/
def sampleDf : DataFrame :=
  { index := [0, 0, 0, 0],
    cols := [(ColumnNames.DATE, [16039, 16039, 16040, 16041]),
             (ColumnNames.TIME, [0, 600, 0, 30]),
             (ColumnNames.POWER, [10, 20, 30, 40]),
             (ColumnNames.TEMPERATURE, [5, 6, 7, 8])] }

/-- A concrete stand-in for the prophet interpolation: the identity on the
column (an interpolation of a column with no missing values). -/
def sampleInterp : List ℚ → List ℚ := fun l => l

/-- The training index of the counterexample to C5 as stated: 1000 timestamps
one minute apart (any fitted index with at least `DEFAULT_FUTURE_PERIODS`
entries exhibits the same in-sample behaviour). -/
def arimaCexIndex : List ℚ := (List.range 1000).map (fun i : ℕ => (i : ℚ))

theorem find?_col_map_overwrite (cs : List (String × List ℚ)) (name : String)
    (vals : List ℚ) :
    (cs.map (fun c => if c.1 = name then (name, vals) else c)).find?
        (fun c => c.1 = name) =
      (cs.find? (fun c => c.1 = name)).map (fun _ => (name, vals)) := by
  induction cs with
  | nil => simp
  | cons a as ih =>
    by_cases ha : a.1 = name
    · simp [List.find?, ha]
    · simp [List.find?, ha, ih]

theorem find?_col_map_overwrite_ne (cs : List (String × List ℚ)) (name other : String)
    (vals : List ℚ) (h : other ≠ name) :
    (cs.map (fun c => if c.1 = name then (name, vals) else c)).find?
        (fun c => c.1 = other) =
      cs.find? (fun c => c.1 = other) := by
  induction cs with
  | nil => simp
  | cons a as ih =>
    by_cases ha : a.1 = name
    · have h1 : ¬ (name = other) := fun hh => h hh.symm
      have h2 : ¬ (a.1 = other) := by
        rw [ha]
        exact h1
      simp [List.find?, ha, h1, h2, ih]
    · by_cases hb : a.1 = other
      · simp [List.find?, ha, hb, h]
      · simp [List.find?, ha, hb, ih]

theorem DataFrame.getCol_setCol_self (df : DataFrame) (name : String) (vals : List ℚ) :
    (df.setCol name vals).getCol name = vals := by
  by_cases hc : (df.cols.find? (fun c => c.1 = name)).isSome
  · rw [DataFrame.setCol, if_pos hc]
    unfold DataFrame.getCol
    simp only
    rw [find?_col_map_overwrite]
    obtain ⟨c, hcc⟩ := Option.isSome_iff_exists.mp hc
    simp [hcc]
  · rw [DataFrame.setCol, if_neg hc]
    unfold DataFrame.getCol
    simp only
    have hn : df.cols.find? (fun c => c.1 = name) = none :=
      Option.not_isSome_iff_eq_none.mp hc
    rw [List.find?_append, hn]
    simp [List.find?]

theorem DataFrame.getCol_setCol_ne (df : DataFrame) (name other : String)
    (vals : List ℚ) (h : other ≠ name) :
    (df.setCol name vals).getCol other = df.getCol other := by
  by_cases hc : (df.cols.find? (fun c => c.1 = name)).isSome
  · rw [DataFrame.setCol, if_pos hc]
    unfold DataFrame.getCol
    simp only
    rw [find?_col_map_overwrite_ne _ _ _ _ h]
  · rw [DataFrame.setCol, if_neg hc]
    unfold DataFrame.getCol
    simp only
    rw [List.find?_append]
    have h1 : ¬ (name = other) := fun hh => h hh.symm
    cases hfind : df.cols.find? (fun c => c.1 = other) with
    | none => simp [hfind, List.find?, h1]
    | some c => simp [hfind]

theorem DataFrame.index_setCol (df : DataFrame) (name : String) (vals : List ℚ) :
    (df.setCol name vals).index = df.index := by
  unfold DataFrame.setCol
  split <;> rfl

theorem find?_col_map_snd (f : List ℚ → List ℚ) (cs : List (String × List ℚ))
    (name : String) :
    (cs.map (fun c => (c.1, f c.2))).find? (fun c => c.1 = name) =
      (cs.find? (fun c => c.1 = name)).map (fun c => (c.1, f c.2)) := by
  induction cs with
  | nil => simp
  | cons a as ih =>
    by_cases ha : a.1 = name
    · simp [List.find?, ha]
    · simp [List.find?, ha, ih]

theorem DataFrame.getCol_map_snd (df : DataFrame) (idx : List ℚ)
    (f : List ℚ → List ℚ) (hf : f [] = []) (name : String) :
    (DataFrame.mk idx (df.cols.map (fun c => (c.1, f c.2)))).getCol name =
      f (df.getCol name) := by
  unfold DataFrame.getCol
  simp only
  rw [find?_col_map_snd]
  cases df.cols.find? (fun c => c.1 = name) with
  | none => simp [hf]
  | some c => simp

theorem DataFrame.getCol_takeRows (df : DataFrame) (k : ℕ) (name : String) :
    (df.takeRows k).getCol name = (df.getCol name).take k :=
  df.getCol_map_snd _ (fun v => v.take k) (by simp) name

theorem DataFrame.getCol_dropRows (df : DataFrame) (k : ℕ) (name : String) :
    (df.dropRows k).getCol name = (df.getCol name).drop k :=
  df.getCol_map_snd _ (fun v => v.drop k) (by simp) name

theorem DataFrame.getCol_filterRows (df : DataFrame) (p : ℚ → Bool) (name : String) :
    (df.filterRows p).getCol name =
      ((df.index.zip (df.getCol name)).filter (fun z => p z.1)).map (fun z => z.2) :=
  df.getCol_map_snd _ (fun v => ((df.index.zip v).filter (fun z => p z.1)).map (fun z => z.2))
    (by simp) name

theorem interpR_ge_head (v : ℚ) (p : ℚ × ℚ) (rest : List (ℚ × ℚ))
    (hx : List.Chain' (fun s t => s.1 ≤ t.1) (p :: rest))
    (hf : List.Chain' (fun s t => s.2 ≤ t.2) (p :: rest)) :
    p.2 ≤ interpR v (p :: rest) := by
  induction rest generalizing p with
  | nil => simp [interpR]
  | cons q r ih =>
    simp only [interpR]
    by_cases h1 : v < p.1
    · rw [if_pos h1]
    · rw [if_neg h1]
      by_cases h2 : v < q.1
      · rw [if_pos h2]
        have hpv : p.1 ≤ v := not_lt.mp h1
        have hpq1 : p.1 < q.1 := lt_of_le_of_lt hpv h2
        have hpq2 : p.2 ≤ q.2 := (List.chain'_cons.mp hf).1
        have hnn : (0:ℚ) ≤ (q.2 - p.2) * (v - p.1) / (q.1 - p.1) :=
          div_nonneg (mul_nonneg (by linarith) (by linarith)) (by linarith)
        linarith
      · rw [if_neg h2]
        have hpq2 : p.2 ≤ q.2 := (List.chain'_cons.mp hf).1
        have := ih q (List.chain'_cons.mp hx).2 (List.chain'_cons.mp hf).2
        linarith

theorem interpL_ge_head (v : ℚ) (p : ℚ × ℚ) (rest : List (ℚ × ℚ))
    (hx : List.Chain' (fun s t => s.1 ≤ t.1) (p :: rest))
    (hf : List.Chain' (fun s t => s.2 ≤ t.2) (p :: rest)) :
    p.2 ≤ interpL v (p :: rest) := by
  induction rest generalizing p with
  | nil => simp [interpL]
  | cons q r ih =>
    simp only [interpL]
    by_cases h1 : v ≤ p.1
    · rw [if_pos h1]
    · rw [if_neg h1]
      by_cases h2 : v ≤ q.1
      · rw [if_pos h2]
        have hpv : p.1 < v := not_le.mp h1
        have hpq1 : p.1 < q.1 := lt_of_lt_of_le hpv h2
        have hpq2 : p.2 ≤ q.2 := (List.chain'_cons.mp hf).1
        have hnn : (0:ℚ) ≤ (q.2 - p.2) * (v - p.1) / (q.1 - p.1) :=
          div_nonneg (mul_nonneg (by linarith) (by linarith)) (by linarith)
        linarith
      · rw [if_neg h2]
        have hpq2 : p.2 ≤ q.2 := (List.chain'_cons.mp hf).1
        have := ih q (List.chain'_cons.mp hx).2 (List.chain'_cons.mp hf).2
        linarith

theorem chain_fst_head_le {q : ℚ × ℚ} {r : List (ℚ × ℚ)}
    (h : List.Chain' (fun s t : ℚ × ℚ => s.1 < t.1) (q :: r)) :
    ∀ w ∈ q :: r, q.1 ≤ w.1 := by
  induction r generalizing q with
  | nil =>
    intro w hw
    simp at hw
    rw [hw]
  | cons s r' ih =>
    intro w hw
    rcases List.mem_cons.mp hw with hw | hw
    · rw [hw]
    · have hqs : q.1 < s.1 := (List.chain'_cons.mp h).1
      have := ih (List.chain'_cons.mp h).2 w hw
      linarith

theorem interpR_node (a b : ℚ) (pts : List (ℚ × ℚ))
    (hx : List.Chain' (fun s t : ℚ × ℚ => s.1 < t.1) pts)
    (hm : (a, b) ∈ pts) : interpR a pts = b := by
  induction pts with
  | nil => simp at hm
  | cons p rest ih =>
    cases rest with
    | nil =>
      simp only [List.mem_singleton] at hm
      rw [← hm]
      simp [interpR]
    | cons q r =>
      rcases List.mem_cons.mp hm with hp | hp
      · have ha : p.1 = a := by rw [← hp]
        have hb : p.2 = b := by rw [← hp]
        have hpq : p.1 < q.1 := (List.chain'_cons.mp hx).1
        simp only [interpR]
        rw [if_neg (by rw [← ha]; exact lt_irrefl p.1), if_pos (ha ▸ hpq)]
        rw [← ha, ← hb]
        simp
      · have hq : q.1 ≤ a :=
          chain_fst_head_le (List.chain'_cons.mp hx).2 (a, b) hp
        have hpa : p.1 < a := lt_of_lt_of_le (List.chain'_cons.mp hx).1 hq
        simp only [interpR]
        rw [if_neg (not_lt.mpr (le_of_lt hpa)), if_neg (not_lt.mpr hq)]
        exact ih (List.chain'_cons.mp hx).2 hp

theorem interpR_roundtrip (v : ℚ) (p : ℚ × ℚ) (rest : List (ℚ × ℚ))
    (hx : List.Chain' (fun s t : ℚ × ℚ => s.1 ≤ t.1) (p :: rest))
    (hf : List.Chain' (fun s t : ℚ × ℚ => s.2 < t.2) (p :: rest))
    (hpv : p.1 ≤ v) (hex : ∃ w ∈ p :: rest, v ≤ w.1) :
    interpR (interpR v (p :: rest)) ((p :: rest).map Prod.swap) = v := by
  induction rest generalizing p with
  | nil =>
    obtain ⟨w, hw, hvw⟩ := hex
    simp only [List.mem_singleton] at hw
    have hv : v = p.1 := le_antisymm (hw ▸ hvw) hpv
    simp [interpR, hv]
  | cons q r ih =>
    have hpq1 : p.1 ≤ q.1 := (List.chain'_cons.mp hx).1
    have hpq2 : p.2 < q.2 := (List.chain'_cons.mp hf).1
    by_cases h2 : v < q.1
    · have hden : (0:ℚ) < q.1 - p.1 := by
        have : p.1 < q.1 := lt_of_le_of_lt hpv h2
        linarith
      conv_lhs =>
        rw [interpR]
      rw [if_neg (not_lt.mpr hpv), if_pos h2]
      set t := p.2 + (q.2 - p.2) * (v - p.1) / (q.1 - p.1) with ht_def
      have ht1 : p.2 ≤ t := by
        have : (0:ℚ) ≤ (q.2 - p.2) * (v - p.1) / (q.1 - p.1) :=
          div_nonneg (mul_nonneg (by linarith) (by linarith)) (by linarith)
        rw [ht_def]
        linarith
      have ht2 : t < q.2 := by
        have hlt : (q.2 - p.2) * (v - p.1) < (q.2 - p.2) * (q.1 - p.1) := by
          apply mul_lt_mul_of_pos_left _ (by linarith)
          linarith
        have : (q.2 - p.2) * (v - p.1) / (q.1 - p.1) < q.2 - p.2 := by
          rw [div_lt_iff₀ hden]
          calc (q.2 - p.2) * (v - p.1) < (q.2 - p.2) * (q.1 - p.1) := hlt
            _ = (q.2 - p.2) * (q.1 - p.1) := rfl
        rw [ht_def]
        linarith
      simp only [List.map_cons, interpR, Prod.fst_swap, Prod.snd_swap]
      rw [if_neg (not_lt.mpr ht1), if_pos ht2]
      rw [ht_def]
      have hne1 : q.1 - p.1 ≠ 0 := ne_of_gt hden
      have hne2 : q.2 - p.2 ≠ 0 := ne_of_gt (by linarith)
      field_simp
      ring
    · have hq : q.1 ≤ v := not_lt.mp h2
      conv_lhs =>
        rw [interpR]
      rw [if_neg (not_lt.mpr hpv), if_neg h2]
      set t := interpR v (q :: r) with ht_def
      have ht : q.2 ≤ t := by
        rw [ht_def]
        exact interpR_ge_head v q r (List.chain'_cons.mp hx).2
          ((List.chain'_cons.mp hf).2.imp (fun _ _ h => le_of_lt h))
      have hex' : ∃ w ∈ q :: r, v ≤ w.1 := by
        obtain ⟨w, hw, hvw⟩ := hex
        rcases List.mem_cons.mp hw with hw | hw
        · refine ⟨q, List.mem_cons_self q r, ?_⟩
          have : v ≤ p.1 := hw ▸ hvw
          have hvp : v = p.1 := le_antisymm this hpv
          linarith
        · exact ⟨w, hw, hvw⟩
      simp only [List.map_cons, interpR, Prod.fst_swap, Prod.snd_swap]
      rw [if_neg (not_lt.mpr (by linarith)), if_neg (not_lt.mpr ht)]
      have hih := ih q (List.chain'_cons.mp hx).2 (List.chain'_cons.mp hf).2 hq hex'
      rw [ht_def]
      simpa using hih

theorem chain_swap_fst_lt (l : List (ℚ × ℚ))
    (hf : List.Chain' (fun s t : ℚ × ℚ => s.2 < t.2) l) :
    List.Chain' (fun s t : ℚ × ℚ => s.1 < t.1) (l.map Prod.swap) := by
  rw [List.chain'_map]
  exact hf.imp (fun a b h => by simpa using h)

theorem interpL_roundtrip (v : ℚ) (p : ℚ × ℚ) (rest : List (ℚ × ℚ))
    (hx : List.Chain' (fun s t : ℚ × ℚ => s.1 ≤ t.1) (p :: rest))
    (hf : List.Chain' (fun s t : ℚ × ℚ => s.2 < t.2) (p :: rest))
    (hpv : p.1 ≤ v) (hex : ∃ w ∈ p :: rest, v ≤ w.1) :
    interpR (interpL v (p :: rest)) ((p :: rest).map Prod.swap) = v := by
  induction rest generalizing p with
  | nil =>
    obtain ⟨w, hw, hvw⟩ := hex
    simp only [List.mem_singleton] at hw
    have hv : v = p.1 := le_antisymm (hw ▸ hvw) hpv
    simp [interpL, interpR, hv]
  | cons q r ih =>
    have hpq1 : p.1 ≤ q.1 := (List.chain'_cons.mp hx).1
    have hpq2 : p.2 < q.2 := (List.chain'_cons.mp hf).1
    by_cases h1 : v ≤ p.1
    · have hv : v = p.1 := le_antisymm h1 hpv
      conv_lhs =>
        rw [interpL]
      rw [if_pos h1]
      simp only [List.map_cons, interpR, Prod.fst_swap, Prod.snd_swap]
      rw [if_neg (lt_irrefl p.2), if_pos hpq2]
      rw [hv]
      simp
    · have hpv' : p.1 < v := not_le.mp h1
      by_cases h3 : v < q.1
      · have hden : (0:ℚ) < q.1 - p.1 := by linarith
        conv_lhs =>
          rw [interpL]
        rw [if_neg h1, if_pos (le_of_lt h3)]
        set t := p.2 + (q.2 - p.2) * (v - p.1) / (q.1 - p.1) with ht_def
        have ht1 : p.2 ≤ t := by
          have : (0:ℚ) ≤ (q.2 - p.2) * (v - p.1) / (q.1 - p.1) :=
            div_nonneg (mul_nonneg (by linarith) (by linarith)) (by linarith)
          rw [ht_def]
          linarith
        have ht2 : t < q.2 := by
          have hlt : (q.2 - p.2) * (v - p.1) < (q.2 - p.2) * (q.1 - p.1) :=
            mul_lt_mul_of_pos_left (by linarith) (by linarith)
          have : (q.2 - p.2) * (v - p.1) / (q.1 - p.1) < q.2 - p.2 := by
            rw [div_lt_iff₀ hden]
            linarith
          rw [ht_def]
          linarith
        simp only [List.map_cons, interpR, Prod.fst_swap, Prod.snd_swap]
        rw [if_neg (not_lt.mpr ht1), if_pos ht2]
        rw [ht_def]
        have hne1 : q.1 - p.1 ≠ 0 := ne_of_gt hden
        have hne2 : q.2 - p.2 ≠ 0 := ne_of_gt (by linarith)
        field_simp
        ring
      · by_cases h4 : v ≤ q.1
        · have hv : v = q.1 := le_antisymm h4 (not_lt.mp h3)
          have hden : (0:ℚ) < q.1 - p.1 := by
            rw [← hv]
            linarith
          conv_lhs =>
            rw [interpL]
          rw [if_neg h1, if_pos h4]
          have ht : p.2 + (q.2 - p.2) * (v - p.1) / (q.1 - p.1) = q.2 := by
            rw [hv]
            have hne1 : q.1 - p.1 ≠ 0 := ne_of_gt hden
            field_simp
          rw [ht]
          rw [interpR_node q.2 q.1 _ (chain_swap_fst_lt _ hf)
            (by
              refine List.mem_map_of_mem Prod.swap ?_
              exact List.mem_cons_of_mem p (List.mem_cons_self q r))]
          rw [hv]
        · have hq : q.1 < v := not_le.mp h4
          conv_lhs =>
            rw [interpL]
          rw [if_neg h1, if_neg h4]
          set t := interpL v (q :: r) with ht_def
          have ht : q.2 ≤ t := by
            rw [ht_def]
            exact interpL_ge_head v q r (List.chain'_cons.mp hx).2
              ((List.chain'_cons.mp hf).2.imp (fun _ _ h => le_of_lt h))
          have hex' : ∃ w ∈ q :: r, v ≤ w.1 := by
            obtain ⟨w, hw, hvw⟩ := hex
            rcases List.mem_cons.mp hw with hw | hw
            · exact absurd (hw ▸ hvw) h1
            · exact ⟨w, hw, hvw⟩
          simp only [List.map_cons, interpR, Prod.fst_swap, Prod.snd_swap]
          rw [if_neg (not_lt.mpr (by linarith)), if_neg (not_lt.mpr ht)]
          have hih := ih q (List.chain'_cons.mp hx).2 (List.chain'_cons.mp hf).2
            (le_of_lt hq) hex'
          rw [ht_def]
          simpa using hih

theorem interpR_mono (u1 u2 : ℚ) (h : u1 ≤ u2) (pts : List (ℚ × ℚ))
    (hx : List.Chain' (fun s t : ℚ × ℚ => s.1 ≤ t.1) pts)
    (hf : List.Chain' (fun s t : ℚ × ℚ => s.2 ≤ t.2) pts) :
    interpR u1 pts ≤ interpR u2 pts := by
  induction pts with
  | nil => simp [interpR]
  | cons p rest ih =>
    cases rest with
    | nil => simp [interpR]
    | cons q r =>
      have hpq1 : p.1 ≤ q.1 := (List.chain'_cons.mp hx).1
      have hpq2 : p.2 ≤ q.2 := (List.chain'_cons.mp hf).1
      by_cases a1 : u1 < p.1
      · conv_lhs =>
          rw [interpR]
        rw [if_pos a1]
        exact interpR_ge_head u2 p (q :: r) hx hf
      · have hp1 : p.1 ≤ u1 := not_lt.mp a1
        have a2 : ¬ (u2 < p.1) := not_lt.mpr (le_trans hp1 h)
        by_cases b1 : u1 < q.1
        · by_cases b2 : u2 < q.1
          · simp only [interpR]
            rw [if_neg a1, if_pos b1, if_neg a2, if_pos b2]
            have hden : (0:ℚ) < q.1 - p.1 := by
              have : p.1 < q.1 := lt_of_le_of_lt hp1 b1
              linarith
            have hnum : (q.2 - p.2) * (u1 - p.1) ≤ (q.2 - p.2) * (u2 - p.1) :=
              mul_le_mul_of_nonneg_left (by linarith) (by linarith)
            have : (q.2 - p.2) * (u1 - p.1) / (q.1 - p.1) ≤
                (q.2 - p.2) * (u2 - p.1) / (q.1 - p.1) := by
              rw [div_le_div_iff₀ hden hden]
              nlinarith
            linarith
          · have hq2 : q.1 ≤ u2 := not_lt.mp b2
            simp only [interpR]
            rw [if_neg a1, if_pos b1, if_neg a2, if_neg b2]
            have hden : (0:ℚ) < q.1 - p.1 := by
              have : p.1 < q.1 := lt_of_le_of_lt hp1 b1
              linarith
            have hub : p.2 + (q.2 - p.2) * (u1 - p.1) / (q.1 - p.1) ≤ q.2 := by
              have hr : (q.2 - p.2) * (u1 - p.1) / (q.1 - p.1) ≤ q.2 - p.2 := by
                rw [div_le_iff₀ hden]
                have : (q.2 - p.2) * (u1 - p.1) ≤ (q.2 - p.2) * (q.1 - p.1) :=
                  mul_le_mul_of_nonneg_left (by linarith) (by linarith)
                linarith
              linarith
            have hlb := interpR_ge_head u2 q r (List.chain'_cons.mp hx).2
              (List.chain'_cons.mp hf).2
            linarith
        · have hq1 : q.1 ≤ u1 := not_lt.mp b1
          have b2 : ¬ (u2 < q.1) := not_lt.mpr (le_trans hq1 h)
          simp only [interpR]
          rw [if_neg a1, if_neg b1, if_neg a2, if_neg b2]
          exact ih (List.chain'_cons.mp hx).2 (List.chain'_cons.mp hf).2

theorem qtransform_roundtrip (v : ℚ) (p : ℚ × ℚ) (rest : List (ℚ × ℚ))
    (hx : List.Chain' (fun s t : ℚ × ℚ => s.1 ≤ t.1) (p :: rest))
    (hf : List.Chain' (fun s t : ℚ × ℚ => s.2 < t.2) (p :: rest))
    (hpv : p.1 ≤ v) (hex : ∃ w ∈ p :: rest, v ≤ w.1) :
    qinverse (p :: rest) (qtransform (p :: rest) v) = v := by
  have hL := interpL_roundtrip v p rest hx hf hpv hex
  have hR := interpR_roundtrip v p rest hx hf hpv hex
  have hsx : List.Chain' (fun s t : ℚ × ℚ => s.1 ≤ t.1) ((p :: rest).map Prod.swap) := by
    rw [List.chain'_map]
    exact hf.imp (fun a b hab => by simpa using le_of_lt hab)
  have hsf : List.Chain' (fun s t : ℚ × ℚ => s.2 ≤ t.2) ((p :: rest).map Prod.swap) := by
    rw [List.chain'_map]
    exact hx.imp (fun a b hab => by simpa using hab)
  unfold qtransform qinverse
  unfold qinverse at hL hR
  set L := interpL v (p :: rest) with hLd
  set R := interpR v (p :: rest) with hRd
  rcases le_total L R with hLR | hRL
  · have m1 := interpR_mono L ((L + R) / 2) (by linarith) _ hsx hsf
    have m2 := interpR_mono ((L + R) / 2) R (by linarith) _ hsx hsf
    rw [hL] at m1
    rw [hR] at m2
    linarith
  · have m1 := interpR_mono R ((L + R) / 2) (by linarith) _ hsx hsf
    have m2 := interpR_mono ((L + R) / 2) L (by linarith) _ hsx hsf
    rw [hR] at m1
    rw [hL] at m2
    linarith

theorem chain'_zip_fst {r : ℚ → ℚ → Prop} :
    ∀ (a b : List ℚ), List.Chain' r a →
      List.Chain' (fun s t : ℚ × ℚ => r s.1 t.1) (a.zip b) := by
  intro a
  induction a with
  | nil =>
    intro b _
    simp
  | cons x a' ih =>
    intro b h
    cases b with
    | nil => simp
    | cons y b' =>
      cases a' with
      | nil => simp
      | cons x2 a'' =>
        cases b' with
        | nil => simp
        | cons y2 b'' =>
          rw [List.zip_cons_cons, List.zip_cons_cons]
          refine List.chain'_cons.mpr ⟨(List.chain'_cons.mp h).1, ?_⟩
          rw [← List.zip_cons_cons]
          exact ih (y2 :: b'') (List.chain'_cons.mp h).2

theorem chain'_zip_snd {r : ℚ → ℚ → Prop} :
    ∀ (a b : List ℚ), List.Chain' r b →
      List.Chain' (fun s t : ℚ × ℚ => r s.2 t.2) (a.zip b) := by
  intro a
  induction a with
  | nil =>
    intro b _
    simp
  | cons x a' ih =>
    intro b h
    cases b with
    | nil => simp
    | cons y b' =>
      cases a' with
      | nil => simp
      | cons x2 a'' =>
        cases b' with
        | nil => simp
        | cons y2 b'' =>
          rw [List.zip_cons_cons, List.zip_cons_cons]
          refine List.chain'_cons.mpr ⟨(List.chain'_cons.mp h).1, ?_⟩
          rw [← List.zip_cons_cons]
          exact ih (y2 :: b'') (List.chain'_cons.mp h).2

theorem length_references (n : ℕ) : (references n).length = n := by
  unfold references
  rw [List.length_map, List.length_range]

theorem chain'_lt_references (n : ℕ) : List.Chain' (· < ·) (references n) := by
  match n with
  | 0 => simp [references]
  | 1 => simp [references]
  | (m + 2) =>
    unfold references
    refine (List.chain'_map
      (fun i : ℕ => (i : ℚ) / ((((m + 2 : ℕ)) : ℚ) - 1))).mpr ?_
    refine (List.chain'_range_succ _ (m + 1)).mpr ?_
    intro k hk
    have hden : (0:ℚ) < ((m + 2 : ℕ) : ℚ) - 1 := by
      push_cast
      linarith
    rw [div_lt_div_iff₀ hden hden]
    have hk1 : (k : ℚ) < (k.succ : ℚ) := by
      push_cast
      linarith
    nlinarith

theorem sorted_head_le {x : ℚ} {l : List ℚ} (h : List.Sorted (· ≤ ·) (x :: l))
    {v : ℚ} (hv : v ∈ x :: l) : x ≤ v := by
  rcases List.mem_cons.mp hv with hv | hv
  · rw [hv]
  · exact (List.sorted_cons.mp h).1 v hv

theorem mem_zip_fst {v : ℚ} :
    ∀ (a b : List ℚ), v ∈ a → a.length ≤ b.length →
      ∃ w ∈ a.zip b, w.1 = v := by
  intro a
  induction a with
  | nil =>
    intro b hv _
    simp at hv
  | cons x a' ih =>
    intro b hv hlen
    cases b with
    | nil => simp at hlen
    | cons y b' =>
      rcases List.mem_cons.mp hv with hv | hv
      · exact ⟨(x, y), by simp, hv.symm⟩
      · obtain ⟨w, hw, hw1⟩ := ih b' hv (by simpa using hlen)
        exact ⟨w, by simp [List.zip_cons_cons, hw], hw1⟩

theorem quantilePoints_roundtrip (xs : List ℚ) (v : ℚ) (hv : v ∈ xs) :
    qinverse (quantilePoints xs) (qtransform (quantilePoints xs) v) = v := by
  have hperm := List.perm_insertionSort (· ≤ ·) xs
  have hsort := List.sorted_insertionSort (· ≤ ·) xs
  have hlen : (List.insertionSort (· ≤ ·) xs).length = xs.length := hperm.length_eq
  have hvs : v ∈ List.insertionSort (· ≤ ·) xs := hperm.mem_iff.mpr hv
  have hchainx : List.Chain' (· ≤ ·) (List.insertionSort (· ≤ ·) xs) :=
    List.Pairwise.chain' hsort
  have hxzip := chain'_zip_fst (r := (· ≤ ·)) (List.insertionSort (· ≤ ·) xs)
    (references xs.length) hchainx
  have hfzip := chain'_zip_snd (r := (· < ·)) (List.insertionSort (· ≤ ·) xs)
    (references xs.length) (chain'_lt_references xs.length)
  have hexzip : ∃ w ∈ quantilePoints xs, v ≤ w.1 := by
    obtain ⟨w, hw, hw1⟩ := mem_zip_fst (List.insertionSort (· ≤ ·) xs)
      (references xs.length) hvs
      (by rw [hlen, length_references])
    exact ⟨w, hw, le_of_eq hw1.symm⟩
  cases hss : quantilePoints xs with
  | nil =>
    exfalso
    obtain ⟨w, hw, _⟩ := hexzip
    rw [hss] at hw
    simp at hw
  | cons p rest =>
    have hpx : p.1 ≤ v := by
      have hhead : ∃ s0 t0, List.insertionSort (· ≤ ·) xs = s0 :: t0 ∧ p.1 = s0 := by
        cases hs0 : List.insertionSort (· ≤ ·) xs with
        | nil =>
          exfalso
          rw [hs0] at hvs
          simp at hvs
        | cons s0 t0 =>
          refine ⟨s0, t0, rfl, ?_⟩
          unfold quantilePoints at hss
          rw [hs0] at hss
          cases hr : references xs.length with
          | nil =>
            rw [hr] at hss
            simp at hss
          | cons r0 rr =>
            rw [hr, List.zip_cons_cons] at hss
            have := (List.cons.injEq _ _ _ _).mp hss
            rw [← this.1]
      obtain ⟨s0, t0, hs0, hp1⟩ := hhead
      rw [hp1]
      exact sorted_head_le (hs0 ▸ hsort) (hs0 ▸ hvs)
    have hss' : (List.insertionSort (· ≤ ·) xs).zip (references xs.length) = p :: rest := hss
    exact qtransform_roundtrip v p rest (hss' ▸ hxzip) (hss' ▸ hfzip) hpx (hss ▸ hexzip)

theorem inverseTransform1D_fitTransform1D (xs : List ℚ) :
    inverseTransform1D xs (fitTransform1D xs) = xs := by
  unfold inverseTransform1D fitTransform1D
  rw [List.map_map]
  have h : ∀ a ∈ xs,
      (qinverse (quantilePoints xs) ∘ qtransform (quantilePoints xs)) a = id a :=
    fun a ha => quantilePoints_roundtrip xs a ha
  rw [List.map_congr_left h, List.map_id]

/-- C1: the constructor performs the pipeline in the stated order — datetime
index from the date and time columns, then prophet interpolation of the
temperature column, then renaming the power column to `y`, then quantile
normalization of the label and temperature features — and no forecasting model is
fit during construction (`model_fit` is still `none`; the cutoff filtering
and the `ds` column merely carve the pipeline output into the stored state). -/
theorem spec2proof_c1 (df0 : DataFrame) (interp : List ℚ → List ℚ)
    (model : ModelKind) (ratio : ℚ) :
    (PowerForecaster.init df0 interp model ratio).2.df =
      ((specPipeline df0 interp).filterRows
          (fun t => t < Constants.CUTOFF_DATE)).setCol ColumnNames.DATE_STAMP
        ((specPipeline df0 interp).filterRows
          (fun t => t < Constants.CUTOFF_DATE)).index ∧
    (PowerForecaster.init df0 interp model ratio).2.testing =
      (specPipeline df0 interp).filterRows
        (fun t => Constants.CUTOFF_DATE ≤ t) ∧
    (PowerForecaster.init df0 interp model ratio).2.model_fit = none :=
  ⟨rfl, rfl, rfl⟩

/-- C2: `fit()` and `predict()` dispatch each of the four `Models` members to
exactly the corresponding routine, and raise `ValueError` on any other model
value. -/
theorem spec2proof_c2 :
    PowerForecaster.fit ModelKind.PROPHET = .ok FitCall.prophet_fit ∧
    PowerForecaster.fit ModelKind.ARIMA = .ok FitCall.arima_fit ∧
    PowerForecaster.fit ModelKind.VAR = .ok FitCall.var_fit ∧
    PowerForecaster.fit ModelKind.LSTM = .ok FitCall.lstm_fit_simple ∧
    PowerForecaster.predictDispatch ModelKind.PROPHET = .ok PredictCall.prophet_predict ∧
    PowerForecaster.predictDispatch ModelKind.ARIMA = .ok PredictCall.arima_predict ∧
    PowerForecaster.predictDispatch ModelKind.VAR = .ok PredictCall.var_predict ∧
    PowerForecaster.predictDispatch ModelKind.LSTM = .ok PredictCall.lstm_predict ∧
    ∀ s : String,
      PowerForecaster.fit (ModelKind.otherValue s) =
        .error (reprStr (ModelKind.otherValue s) ++ " is not defined") ∧
      PowerForecaster.predictDispatch (ModelKind.otherValue s) =
        .error (reprStr (ModelKind.otherValue s) ++ " is not defined") :=
  ⟨rfl, rfl, rfl, rfl, rfl, rfl, rfl, rfl, fun _ => ⟨rfl, rfl⟩⟩

/-- C4: `sliding_window` never produces the windowed data at all — the
binding `window_size = Constants.WINDOW_TIME_STEPS` takes the enum member
itself (the `.value` is missing), so `length0 - window_size` raises
`TypeError` on every dataframe (and even past that, `int( * length)` would
raise `TypeError` again). -/
theorem spec2proof_c4 (df : DataFrame) :
    PowerForecaster.sliding_window df =
      .error "TypeError: unsupported operand type for -" :=
  rfl

/-- C6: `evaluate()` can never report an RMSE: for every predictor, fitted
transformer and test set it raises — `pd.concatenate` does not exist
(`AttributeError`), and with the 3-dimensional windowed `test_X` of the program
even the preceding reshape to `(shape[0], shape[2])` is a `ValueError`. -/
theorem spec2proof_c6 (predictFn : List (List (List ℚ)) → List (List ℚ))
    (fitted : List (List ℚ)) (test_X : List (List (List ℚ))) (test_y : List ℚ) :
    ∃ msg, PowerForecaster.evaluate predictFn fitted test_X test_y =
      .error msg := by
  cases hr : npReshape2 test_X test_X.length ((test_X.headD []).headD []).length with
  | error e =>
    refine ⟨e, ?_⟩
    simp only [PowerForecaster.evaluate]
    rw [hr]
    rfl
  | ok v =>
    refine ⟨"AttributeError: module pandas has no attribute concatenate", ?_⟩
    simp only [PowerForecaster.evaluate]
    rw [hr]
    rfl

/-- C7: the quantile feature scaling is invertible on fitted data — for every
feature matrix (list of feature columns), inverse-transforming the
transformed columns through the fitted transformer returns the original
values exactly (in the exact-arithmetic model of the transformer). -/
theorem spec2proof_c7 (featureCols : List (List ℚ)) :
    featureCols.map (fun c => inverseTransform1D c (fitTransform1D c)) =
      featureCols := by
  have h : ∀ c ∈ featureCols,
      (fun c => inverseTransform1D c (fitTransform1D c)) c = id c :=
    fun c _ => inverseTransform1D_fitTransform1D c
  rw [List.map_congr_left h, List.map_id]

/-- C10: the constructor mutates the dataframe of the caller in place — it gets
the new datetime index and the interpolated temperature column, while its
power column keeps its name and values (the rename only rebinds the local
variable); and `df_original`, copied between the index assignment and the
interpolation, keeps the original power and temperature values under the new
index. -/
theorem spec2proof_c10 (df0 : DataFrame) (interp : List ℚ → List ℚ)
    (model : ModelKind) (ratio : ℚ) :
    (PowerForecaster.init df0 interp model ratio).1.index =
      List.zipWith toDatetime (df0.getCol ColumnNames.DATE)
        (df0.getCol ColumnNames.TIME) ∧
    (PowerForecaster.init df0 interp model ratio).1.getCol ColumnNames.TEMPERATURE =
      interp (df0.getCol ColumnNames.TEMPERATURE) ∧
    (PowerForecaster.init df0 interp model ratio).1.getCol ColumnNames.POWER =
      df0.getCol ColumnNames.POWER ∧
    (PowerForecaster.init df0 interp model ratio).2.df_original.index =
      List.zipWith toDatetime (df0.getCol ColumnNames.DATE)
        (df0.getCol ColumnNames.TIME) ∧
    (PowerForecaster.init df0 interp model ratio).2.df_original.getCol ColumnNames.POWER =
      df0.getCol ColumnNames.POWER ∧
    (PowerForecaster.init df0 interp model ratio).2.df_original.getCol ColumnNames.TEMPERATURE =
      df0.getCol ColumnNames.TEMPERATURE := by
  refine ⟨?_, ?_, ?_, rfl, rfl, rfl⟩
  · show (DataFrame.setCol _ ColumnNames.TEMPERATURE _).index = _
    rw [DataFrame.index_setCol]
  · show (DataFrame.setCol _ ColumnNames.TEMPERATURE _).getCol ColumnNames.TEMPERATURE = _
    rw [DataFrame.getCol_setCol_self]
    rfl
  · show (DataFrame.setCol _ ColumnNames.TEMPERATURE _).getCol ColumnNames.POWER = _
    rw [DataFrame.getCol_setCol_ne _ _ _ _ (by decide)]
    rfl

/-- C3: `train_test_split` gives exactly the first `floor(ratio * n)` rows as
train and the remaining rows as test, in original order: the index and every
column are the corresponding `take`/`drop`, their concatenation is the input,
and positionally every train row precedes every test row. -/
theorem spec2proof_c3 (ratio : ℚ) (df : DataFrame) (h : 0 ≤ ratio) :
    (PowerForecaster.train_test_split ratio df).1.index =
      df.index.take (⌊ratio * (df.index.length : ℚ)⌋).toNat ∧
    (PowerForecaster.train_test_split ratio df).2.index =
      df.index.drop (⌊ratio * (df.index.length : ℚ)⌋).toNat ∧
    (PowerForecaster.train_test_split ratio df).1.index ++
        (PowerForecaster.train_test_split ratio df).2.index = df.index ∧
    (∀ name : String,
      (PowerForecaster.train_test_split ratio df).1.getCol name =
        (df.getCol name).take (⌊ratio * (df.index.length : ℚ)⌋).toNat ∧
      (PowerForecaster.train_test_split ratio df).2.getCol name =
        (df.getCol name).drop (⌊ratio * (df.index.length : ℚ)⌋).toNat) ∧
    (∀ i : ℕ, i < (PowerForecaster.train_test_split ratio df).1.index.length →
      (PowerForecaster.train_test_split ratio df).1.index[i]? = df.index[i]?) ∧
    (∀ j : ℕ,
      (PowerForecaster.train_test_split ratio df).2.index[j]? =
        df.index[(⌊ratio * (df.index.length : ℚ)⌋).toNat + j]?) := by
  have hnn : 0 ≤ ratio * (df.index.length : ℚ) := mul_nonneg h (by positivity)
  have hpy : pyInt (ratio * (df.index.length : ℚ)) = ⌊ratio * (df.index.length : ℚ)⌋ := by
    unfold pyInt
    rw [if_pos hnn]
  simp only [PowerForecaster.train_test_split, hpy]
  refine ⟨rfl, rfl, List.take_append_drop _ _,
    fun name => ⟨df.getCol_takeRows _ name, df.getCol_dropRows _ name⟩, ?_, ?_⟩
  · intro i hi
    show (df.index.take _)[i]? = df.index[i]?
    rw [List.getElem?_take]
    have hi2 : i < (⌊ratio * (df.index.length : ℚ)⌋).toNat := by
      have := hi
      simp only [DataFrame.takeRows, List.length_take, lt_min_iff] at this
      exact this.1
    rw [if_pos hi2]
  · intro j
    exact List.getElem?_drop _ _ _

/-- Witness for C3 at a concrete ratio and dataframe. -/
theorem spec2proof_c3_witness :
    (0 ≤ (8/10 : ℚ)) ∧
    (PowerForecaster.train_test_split (8/10) sampleDf).1.index =
      sampleDf.index.take (⌊(8/10 : ℚ) * (sampleDf.index.length : ℚ)⌋).toNat :=
  ⟨by norm_num, (spec2proof_c3 (8/10) sampleDf (by norm_num)).1⟩

theorem DataFrame.getCol_mk_cons (idx : List ℚ) (c : String × List ℚ)
    (cs : List (String × List ℚ)) (name : String) :
    (DataFrame.mk idx (c :: cs)).getCol name =
      if c.1 = name then c.2 else (DataFrame.mk idx cs).getCol name := by
  unfold DataFrame.getCol
  by_cases h : c.1 = name <;> simp [List.find?, h]

/-- C8: the PROPHET branch of `predict()` produces future predictions only —
`DEFAULT_FUTURE_PERIODS` timestamps at the 15-minute frequency, all strictly
after the end of the fitted history (history excluded), and the returned
frame's label column `y` equals its forecast column `yhat`. -/
theorem spec2proof_c8 (historyDs : List ℚ) (yhatFn : ℚ → ℚ) :
    (∀ t ∈ (PowerForecaster.prophetPredictPath historyDs yhatFn).getCol
        ColumnNames.DATE_STAMP, historyDs.getLastD 0 < t) ∧
    ((PowerForecaster.prophetPredictPath historyDs yhatFn).getCol
        ColumnNames.DATE_STAMP).length = Constants.DEFAULT_FUTURE_PERIODS ∧
    (PowerForecaster.prophetPredictPath historyDs yhatFn).getCol ColumnNames.LABEL =
      (PowerForecaster.prophetPredictPath historyDs yhatFn).getCol
        ColumnNames.FORECAST := by
  have hds : (PowerForecaster.prophetPredictPath historyDs yhatFn).getCol
      ColumnNames.DATE_STAMP =
      make_future_dataframe historyDs Constants.DEFAULT_FUTURE_PERIODS
        Constants.DEFAULT_FUTURE_FREQ false := by
    show (DataFrame.setCol _ ColumnNames.LABEL _).getCol ColumnNames.DATE_STAMP = _
    rw [DataFrame.getCol_setCol_ne _ _ _ _ (by decide)]
    rw [DataFrame.getCol_mk_cons, if_pos rfl]
  refine ⟨?_, ?_, ?_⟩
  · intro t ht
    rw [hds] at ht
    unfold make_future_dataframe at ht
    simp only [if_neg Bool.false_ne_true, List.mem_map, List.mem_range] at ht
    obtain ⟨i, _, hit⟩ := ht
    rw [← hit]
    have hi0 : (0:ℚ) ≤ (i : ℚ) := Nat.cast_nonneg i
    have : (0:ℚ) < Constants.DEFAULT_FUTURE_FREQ * ((i : ℚ) + 1) := by
      unfold Constants.DEFAULT_FUTURE_FREQ
      nlinarith
    linarith
  · rw [hds]
    unfold make_future_dataframe
    simp [Constants.DEFAULT_FUTURE_PERIODS]
  · have h1 : (PowerForecaster.prophetPredictPath historyDs yhatFn).getCol
        ColumnNames.LABEL =
        (make_future_dataframe historyDs Constants.DEFAULT_FUTURE_PERIODS
          Constants.DEFAULT_FUTURE_FREQ false).map yhatFn := by
      show (DataFrame.setCol _ ColumnNames.LABEL _).getCol ColumnNames.LABEL = _
      rw [DataFrame.getCol_setCol_self]
      rw [DataFrame.getCol_mk_cons,
        if_neg (show ¬ (ColumnNames.DATE_STAMP = ColumnNames.FORECAST) by decide),
        DataFrame.getCol_mk_cons, if_pos rfl]
    have h2 : (PowerForecaster.prophetPredictPath historyDs yhatFn).getCol
        ColumnNames.FORECAST =
        (make_future_dataframe historyDs Constants.DEFAULT_FUTURE_PERIODS
          Constants.DEFAULT_FUTURE_FREQ false).map yhatFn := by
      show (DataFrame.setCol _ ColumnNames.LABEL _).getCol ColumnNames.FORECAST = _
      rw [DataFrame.getCol_setCol_ne _ _ _ _ (by decide)]
      rw [DataFrame.getCol_mk_cons,
        if_neg (show ¬ (ColumnNames.DATE_STAMP = ColumnNames.FORECAST) by decide),
        DataFrame.getCol_mk_cons, if_pos rfl]
    rw [h1, h2]

/-- C9: the constructor partitions the normalized pipeline output at the
cutoff date 2013-12-01 — every row strictly before the cutoff goes to
`self.df`, every row at or after it to `self.testing`, no row is in both, and
together they cover all rows (index-wise a permutation of the normalized
index, and column-wise the tandem filtrations of each non-`ds` column). -/
theorem spec2proof_c9 (df0 : DataFrame) (interp : List ℚ → List ℚ)
    (model : ModelKind) (ratio : ℚ) :
    (∀ t ∈ (PowerForecaster.init df0 interp model ratio).2.df.index,
      t < Constants.CUTOFF_DATE) ∧
    (∀ t ∈ (PowerForecaster.init df0 interp model ratio).2.testing.index,
      Constants.CUTOFF_DATE ≤ t) ∧
    (∀ t, t ∈ (PowerForecaster.init df0 interp model ratio).2.df.index →
      t ∉ (PowerForecaster.init df0 interp model ratio).2.testing.index) ∧
    List.Perm
      ((PowerForecaster.init df0 interp model ratio).2.df.index ++
        (PowerForecaster.init df0 interp model ratio).2.testing.index)
      (specPipeline df0 interp).index ∧
    (∀ name : String, name ≠ ColumnNames.DATE_STAMP →
      (PowerForecaster.init df0 interp model ratio).2.df.getCol name =
        (((specPipeline df0 interp).index.zip
            ((specPipeline df0 interp).getCol name)).filter
          (fun z => z.1 < Constants.CUTOFF_DATE)).map (fun z => z.2) ∧
      (PowerForecaster.init df0 interp model ratio).2.testing.getCol name =
        (((specPipeline df0 interp).index.zip
            ((specPipeline df0 interp).getCol name)).filter
          (fun z => Constants.CUTOFF_DATE ≤ z.1)).map (fun z => z.2)) := by
  have hdfi : (PowerForecaster.init df0 interp model ratio).2.df.index =
      (specPipeline df0 interp).index.filter
        (fun t => t < Constants.CUTOFF_DATE) := by
    show (DataFrame.setCol _ ColumnNames.DATE_STAMP _).index = _
    rw [DataFrame.index_setCol]
    rfl
  have htesti : (PowerForecaster.init df0 interp model ratio).2.testing.index =
      (specPipeline df0 interp).index.filter
        (fun t => Constants.CUTOFF_DATE ≤ t) := rfl
  have hmemdf : ∀ t ∈ (PowerForecaster.init df0 interp model ratio).2.df.index,
      t < Constants.CUTOFF_DATE := by
    intro t ht
    rw [hdfi] at ht
    simpa using (List.mem_filter.mp ht).2
  have hmemtest : ∀ t ∈ (PowerForecaster.init df0 interp model ratio).2.testing.index,
      Constants.CUTOFF_DATE ≤ t := by
    intro t ht
    rw [htesti] at ht
    simpa using (List.mem_filter.mp ht).2
  refine ⟨hmemdf, hmemtest, ?_, ?_, ?_⟩
  · intro t h1 h2
    exact absurd (hmemtest t h2) (not_le.mpr (hmemdf t h1))
  · rw [hdfi, htesti]
    have hcongr : (specPipeline df0 interp).index.filter
        (fun t => Constants.CUTOFF_DATE ≤ t) =
        (specPipeline df0 interp).index.filter
          (fun t => !(decide (t < Constants.CUTOFF_DATE))) := by
      apply List.filter_congr
      intro x _
      by_cases hx : x < Constants.CUTOFF_DATE
      · simp [hx, not_le.mpr hx]
      · simp [hx, not_lt.mp hx]
    rw [hcongr]
    exact List.filter_append_perm _ _
  · intro name hn
    constructor
    · show (DataFrame.setCol _ ColumnNames.DATE_STAMP _).getCol name = _
      rw [DataFrame.getCol_setCol_ne _ _ _ _ hn]
      exact DataFrame.getCol_filterRows _ _ name
    · exact DataFrame.getCol_filterRows _ _ name

/-- Witness for C9 at a concrete dataframe and column name. -/
theorem spec2proof_c9_witness :
    ("y" ≠ ColumnNames.DATE_STAMP) ∧
    ((PowerForecaster.init sampleDf sampleInterp ModelKind.PROPHET (8/10)).2.df.getCol "y" =
      (((specPipeline sampleDf sampleInterp).index.zip
          ((specPipeline sampleDf sampleInterp).getCol "y")).filter
        (fun z => z.1 < Constants.CUTOFF_DATE)).map (fun z => z.2) ∧
    (PowerForecaster.init sampleDf sampleInterp ModelKind.PROPHET (8/10)).2.testing.getCol "y" =
      (((specPipeline sampleDf sampleInterp).index.zip
          ((specPipeline sampleDf sampleInterp).getCol "y")).filter
        (fun z => Constants.CUTOFF_DATE ≤ z.1)).map (fun z => z.2)) :=
  ⟨by decide,
    (spec2proof_c9 sampleDf sampleInterp ModelKind.PROPHET (8/10)).2.2.2.2 "y" (by decide)⟩

theorem dateTrunc_le (t : ℚ) : dateTrunc t ≤ t := by
  unfold dateTrunc
  have hf : ((⌊t / 1440⌋ : ℤ) : ℚ) ≤ t / 1440 := Int.floor_le (t / 1440)
  have h2 : (1440:ℚ) * ((⌊t / 1440⌋ : ℤ) : ℚ) ≤ 1440 * (t / 1440) := by nlinarith
  have h3 : (1440:ℚ) * (t / 1440) = t := by field_simp
  linarith

theorem getD_length_sub_one (l : List ℚ) (hl : l ≠ []) :
    l.getD (l.length - 1) 0 = l.getLastD 0 := by
  induction l with
  | nil => exact absurd rfl hl
  | cons x xs ih =>
    cases hxs : xs with
    | nil => rfl
    | cons y ys =>
      subst hxs
      rw [List.getLastD_eq_getLast?, List.getLast?_cons_cons, ← List.getLastD_eq_getLast?,
        ← ih (List.cons_ne_nil y ys)]
      simp [List.getD]

/-- C5 (amended): fitting the seasonal autoregressive model and predicting is
an in-sample dynamic prediction, not a future one — every timestamp of the
predicted series is a training timestamp, and none lies after the end of the
training data. -/
theorem spec2proof_c5 (trainIdx : List ℚ) (future : ℕ) (preds : List ℚ)
    (h : PowerForecaster.arima_predict trainIdx future = .ok preds) :
    ∀ t ∈ preds, t ∈ trainIdx ∧ t ≤ trainIdx.getLastD 0 := by
  simp only [PowerForecaster.arima_predict, gt_iff_lt] at h
  by_cases hn0 : trainIdx.length = 0
  · rw [if_pos hn0] at h
    exact absurd h (by simp)
  · rw [if_neg hn0] at h
    by_cases hfn : trainIdx.length < future
    · rw [if_pos hfn] at h
      exact absurd h (by simp)
    · rw [if_neg hfn] at h
      have hp : trainIdx.filter
          (fun t => dateTrunc (trainIdx.getD
              (if future = 0 then 0 else trainIdx.length - future) 0) ≤ t &&
            t ≤ dateTrunc (trainIdx.getD (trainIdx.length - 1) 0)) = preds := by
        injection h
      intro t ht
      rw [← hp] at ht
      have hmem := (List.mem_filter.mp ht).1
      have hcond := (List.mem_filter.mp ht).2
      simp only [Bool.and_eq_true, decide_eq_true_eq] at hcond
      refine ⟨hmem, ?_⟩
      have hne : trainIdx ≠ [] := by
        intro hnil
        rw [hnil] at hn0
        exact hn0 rfl
      have hlast := getD_length_sub_one trainIdx hne
      have htr := dateTrunc_le (trainIdx.getD (trainIdx.length - 1) 0)
      have hc2 := hcond.2
      rw [hlast] at htr hc2
      linarith

/-- Witness for the amended C5 at a concrete training index. -/
theorem spec2proof_c5_witness :
    (PowerForecaster.arima_predict [0, 1, 2, 3] 2 = Except.ok [(0 : ℚ)]) ∧
    ∀ t ∈ [(0 : ℚ)], t ∈ ([0, 1, 2, 3] : List ℚ) ∧
      t ≤ ([0, 1, 2, 3] : List ℚ).getLastD 0 := by
  have hEq : PowerForecaster.arima_predict [0, 1, 2, 3] 2 = Except.ok [(0 : ℚ)] := by
    simp only [PowerForecaster.arima_predict]
    have h1 : dateTrunc (([0, 1, 2, 3] : List ℚ).getD
        (if 2 = 0 then 0 else ([0, 1, 2, 3] : List ℚ).length - 2) 0) = 0 := by
      norm_num [dateTrunc, List.getD]
    have h2 : dateTrunc (([0, 1, 2, 3] : List ℚ).getD
        (([0, 1, 2, 3] : List ℚ).length - 1) 0) = 0 := by
      norm_num [dateTrunc, List.getD]
    rw [h1, h2]
    norm_num [List.filter]
  exact ⟨hEq, spec2proof_c5 [0, 1, 2, 3] 2 [(0 : ℚ)] hEq⟩

set_option maxRecDepth 10000 in
/-- C5 counterexample: on this concrete training index the ARIMA predict path
succeeds and its predicted series contains the training timestamp 0, which
does not lie after the end of the training data (timestamp 999) — refuting
the claim that the predicted timestamps lie after the training data. -/
theorem spec2proof_c5_counterexample :
    ∃ preds, PowerForecaster.arimaPredictPath arimaCexIndex = Except.ok preds ∧
      (0 : ℚ) ∈ preds ∧
      arimaCexIndex.getLastD 0 = 999 ∧
      ¬ (∀ t ∈ preds, arimaCexIndex.getLastD 0 < t) := by
  have hlen : arimaCexIndex.length = 1000 := by simp [arimaCexIndex]
  have hne : arimaCexIndex ≠ [] := by simp [arimaCexIndex]
  have hg40 : arimaCexIndex.getD 40 0 = 40 := by
    simp [arimaCexIndex, List.getD_eq_getElem?_getD, List.getElem?_range]
  have hg999 : arimaCexIndex.getD 999 0 = 999 := by
    simp [arimaCexIndex, List.getD_eq_getElem?_getD, List.getElem?_range]
  have hlast : arimaCexIndex.getLastD 0 = 999 := by
    have hd := getD_length_sub_one arimaCexIndex hne
    rw [hlen] at hd
    have h999 : (1000 - 1 : ℕ) = 999 := rfl
    rw [h999] at hd
    rw [hg999] at hd
    exact hd.symm
  have hmem0 : (0 : ℚ) ∈ arimaCexIndex := by
    simp only [arimaCexIndex, List.mem_map]
    exact ⟨0, by norm_num, rfl⟩
  have hpath : PowerForecaster.arimaPredictPath arimaCexIndex =
      Except.ok (arimaCexIndex.filter (fun t =>
        dateTrunc (arimaCexIndex.getD 40 0) ≤ t &&
          t ≤ dateTrunc (arimaCexIndex.getD 999 0))) := by
    simp only [PowerForecaster.arimaPredictPath, PowerForecaster.arima_predict,
      Constants.DEFAULT_FUTURE_PERIODS, gt_iff_lt]
    rw [hlen]
    norm_num
  refine ⟨_, hpath, ?_, hlast, ?_⟩
  · refine List.mem_filter.mpr ⟨hmem0, ?_⟩
    rw [hg40, hg999]
    have h40 : dateTrunc 40 = 0 := by norm_num [dateTrunc]
    have h999 : dateTrunc 999 = 0 := by norm_num [dateTrunc]
    rw [h40, h999]
    norm_num
  · intro hall
    have h0 := hall 0 (List.mem_filter.mpr ⟨hmem0, by
      rw [hg40, hg999]
      have h40 : dateTrunc 40 = 0 := by norm_num [dateTrunc]
      have h999 : dateTrunc 999 = 0 := by norm_num [dateTrunc]
      rw [h40, h999]
      norm_num⟩)
    rw [hlast] at h0
    norm_num at h0
